import Mathlib

/-!
# enyo: multiple-dispatch mixin and touch scroll strategy

A shallow embedding of

* `source/kernel/mixins/MultipleDispatchSupport.js` (the `enyo.MultipleDispatchSupport` mixin), and
* `source/touch/TouchScrollStrategy.js` (the `enyo.TouchScrollStrategy` kind),

followed by theorems about the embedded functions.

Conventions of the embedding.

* Object references are identities (`Nat`); a reference-valued slot is a `Ref`, where `none`
  stands for `null`/`undefined` (the falsy references) and `some n` for the object `n`.
  All objects are truthy, `===` and `==` between references are identity.
* A method that mutates `this` returns the new state of `this`.
* A JavaScript exception is an `Except.error`.
* Calls into collaborators that are not part of the two files (the inherited methods, the
  targets' handlers, the event object's methods, the scroll-math object) are recorded as
  effects in a trace, in the order the source performs them.
* JavaScript numbers are the finite IEEE 754 doubles, each of them a rational.  Comparisons
  of numbers are exact.  An arithmetic result is the exact result rounded to the nearest
  double by a function `rnd`, which is a parameter of the code that computes with numbers;
  `Math.floor` of a number is `Int.floor`.
-/

namespace Enyo

/-! ## Data model of the dispatch mixin -/

/-- A reference-valued slot: `none` is `null`/`undefined`, `some n` is the object with identity `n`. -/
abbrev Ref := Option Nat

/-- A JavaScript exception raised by the embedded code itself. -/
inductive JSError where
  /-- `TypeError`: a method is called on `null` or a callee is not a function. -/
  | typeError
  deriving DecidableEq, Repr

deriving instance DecidableEq for Except

/-- State of an object the mixin is applied to.  `_dispatch_targets` is `null` (`none`)
on the prototype and becomes an array in `create`. -/
structure Component where
  /-- Identity of `this`. -/
  self : Nat
  /-- The `owner` property (absent is `none`). -/
  owner : Ref
  _dispatch_targets : Option (List Ref)
  _default_dispatch : Bool
  _default_target : Ref
  deriving DecidableEq, Repr

/-- The two mutable tags of an event the mixin reads and writes, next to its name. -/
structure Event where
  name : String
  dispatchedByController : Bool
  dispatchController : Ref
  deriving DecidableEq, Repr

/-- The environment a method of the mixin runs in: facts about the other objects. -/
structure Env where
  /-- The value of `target.destroyed`. -/
  destroyed : Nat → Bool
  /-- The value of `o instanceof enyo.Component`. -/
  isComponent : Nat → Bool
  /-- What the handler of target `t` (its `dispatchBubble` or `delegateEvent`) does to the
  state of `this` while it handles the event (re-entrant calls). -/
  handler : Nat → Component → Component

/-- Calls the mixin makes into its collaborators. -/
inductive Effect where
  /-- Effect `this.inherited(arguments)` in `bubbleUp`. -/
  | inheritedBubbleUp (name : String) (event : Event) (sender : Ref)
  /-- Effect `target.dispatchBubble(name, event, sender)`. -/
  | dispatchBubble (target : Nat) (name : String) (event : Event) (sender : Ref)
  /-- Effect `this.inherited(arguments)` in `bubbleDelegation`. -/
  | inheritedBubbleDelegation (delegate : Ref) (prop : String) (name : String) (event : Event)
      (sender : Ref)
  /-- Effect `target.delegateEvent(delegate, prop, name, event, sender)`. -/
  | delegateEvent (target : Nat) (delegate : Ref) (prop : String) (name : String) (event : Event)
      (sender : Ref)
  deriving DecidableEq, Repr

/-! ## Array primitives used by the mixin -/

/-- The method `Array.prototype.indexOf`: index of the first element identical to `t`, or `-1`. -/
def indexOf : List Ref → Ref → Int
  | [], _ => -1
  | x :: rest, t =>
    if x = t then 0
    else
      let i := indexOf rest t
      if i = -1 then -1 else i + 1

/-- The method `Array.prototype.splice(start, deleteCount)` without inserted items: the array
after the deletion.  A negative `start` counts from the end. -/
def splice (xs : List Ref) (start : Int) (deleteCount : Nat) : List Ref :=
  let s : Nat := if start < 0 then (xs.length + start).toNat else min start.toNat xs.length
  xs.take s ++ xs.drop (s + deleteCount)

/-- The operator `~` on an integer. -/
def bitwiseNot (i : Int) : Int := -i - 1

/-! ## The mixin's methods -/

/-- Method `create`: `this._dispatch_targets = []`. -/
def create (c : Component) : Component :=
  { c with _dispatch_targets := some [] }

/-- Computed property `bubbleTarget`: the default target when it is set and default dispatch
is enabled, `undefined` otherwise. -/
def bubbleTarget (c : Component) : Ref :=
  if c._default_target.isSome ∧ c._default_dispatch = true then c._default_target else none

/-- Method `addDispatchTarget(target)`.  The condition is evaluated left to right with
short-circuit: `target && this !== target && !~$dist.indexOf(target) && this.owner !== target`;
`$dist.indexOf` raises when `$dist` is `null`. -/
def addDispatchTarget (c : Component) (target : Ref) : Except JSError Component :=
  match target with
  | none => .ok c
  | some t =>
    if c.self = t then .ok c
    else
      match c._dispatch_targets with
      | none => .error .typeError
      | some dist =>
        if bitwiseNot (indexOf dist target) = 0 ∧ c.owner ≠ target then
          .ok { c with _dispatch_targets := some (dist ++ [target]) }
        else .ok c

/-- Method `removeDispatchTarget(target)`: `idx = $dist.indexOf(target)` and, when
`-1 !== idx`, `$dist.splice(idx, 1)`. -/
def removeDispatchTarget (c : Component) (target : Ref) : Except JSError Component :=
  match c._dispatch_targets with
  | none => .error .typeError
  | some dist =>
    let idx := indexOf dist target
    if idx ≠ -1 then .ok { c with _dispatch_targets := some (splice dist idx 1) }
    else .ok c

/-- Method `ownerChanged()`, run after the `owner` property was assigned: the statements after
`this.inherited(arguments)`.  The inherited method has no effect on the fields of the mixin;
that it may raise is accounted for where calls are sequenced (`step`). -/
def ownerChanged (env : Env) (c : Component) : Component :=
  match c.owner with
  | some o =>
    if env.isComponent o = true then { c with _default_target := c.owner }
    else { c with _default_target := none }
  | none => { c with _default_target := none }

/-- Method `dispatchFrom(sender, event)` of the component `this`: the returned flag and the
event after the call. -/
def dispatchFrom (this_ : Nat) (sender : Ref) (event : Event) : Bool × Event :=
  if event.dispatchedByController = true then
    if event.dispatchController = some this_ then (true, event) else (false, event)
  else if sender = some this_ then
    (false, { event with dispatchedByController := true, dispatchController := some this_ })
  else (false, event)

/-- What `this` denotes inside a callback run by `enyo.forEach`. -/
inductive Receiver where
  /-- The component whose method passed the callback. -/
  | component
  /-- The `enyo` namespace object, which has no `removeDispatchTarget`. -/
  | enyo
  deriving DecidableEq, Repr

/-- Modelled from the spec: `enyo.clone`, a framework helper outside the two source files; the
spec describes its use as a snapshot, a shallow copy of the registered targets taken before
the iteration.  A `null` array gives nothing to iterate. -/
def clone (targets : Option (List Ref)) : List Ref :=
  targets.getD []

/-- Modelled from the spec: `enyo.forEach(array, fn, context)`, a framework helper outside the
two source files; the spec describes it as iterating the snapshot, in index order.  The callback
runs with `context` as its `this` when a context is passed; without one it runs with the
receiver of the helper call itself, the `enyo` namespace object: a JavaScript function has no
access to the `this` of its caller.  An exception of the callback ends the iteration. -/
def forEach {σ : Type} (array : List Ref) (fn : Receiver → σ → Ref → Except JSError σ)
    (context : Option Receiver) (init : σ) : Except JSError σ :=
  array.foldlM (fn (context.getD Receiver.enyo)) init

/-- The callback of `bubbleUp`, run with receiver `rcv` on the state of the component and the
trace so far. -/
def bubbleUpEach (env : Env) (name : String) (event : Event) (sender : Ref)
    (rcv : Receiver) (st : Component × List Effect) (target : Ref) :
    Except JSError (Component × List Effect) :=
  match target with
  | none => .ok st
  | some t =>
    if env.destroyed t = true then
      match rcv with
      | .component => (removeDispatchTarget st.1 target).map (fun c => (c, st.2))
      | .enyo => .error .typeError
    else .ok (env.handler t st.1, st.2 ++ [Effect.dispatchBubble t name event sender])

/-- Method `bubbleUp(name, event, sender)`: the inherited bubbling when `_default_dispatch`
is set, then `enyo.forEach(enyo.clone(targets), callback, this)`. -/
def bubbleUp (env : Env) (c : Component) (name : String) (event : Event) (sender : Ref) :
    Except JSError (Component × List Effect) :=
  let trace := if c._default_dispatch = true then [Effect.inheritedBubbleUp name event sender] else []
  let targets := c._dispatch_targets
  forEach (clone targets) (bubbleUpEach env name event sender) (some Receiver.component) (c, trace)

/-- The callback of `bubbleDelegation`, run with receiver `rcv`. -/
def bubbleDelegationEach (env : Env) (delegate : Ref) (prop : String) (name : String)
    (event : Event) (sender : Ref)
    (rcv : Receiver) (st : Component × List Effect) (target : Ref) :
    Except JSError (Component × List Effect) :=
  match target with
  | none => .ok st
  | some t =>
    if env.destroyed t = true then
      match rcv with
      | .component => (removeDispatchTarget st.1 target).map (fun c => (c, st.2))
      | .enyo => .error .typeError
    else .ok (env.handler t st.1, st.2 ++ [Effect.delegateEvent t delegate prop name event sender])

/-- Method `bubbleDelegation(delegate, prop, name, event, sender)`: the inherited delegation
when `_default_dispatch` is set, then `enyo.forEach(enyo.clone(targets), callback)`; no
context is passed to `enyo.forEach`. -/
def bubbleDelegation (env : Env) (c : Component) (delegate : Ref) (prop : String) (name : String)
    (event : Event) (sender : Ref) : Except JSError (Component × List Effect) :=
  let trace :=
    if c._default_dispatch = true then
      [Effect.inheritedBubbleDelegation delegate prop name event sender]
    else []
  let targets := c._dispatch_targets
  forEach (clone targets) (bubbleDelegationEach env delegate prop name event sender) none (c, trace)

/-! ## Data model of the touch scroll strategy -/

/-- The fields of the scroll-math collaborator (`this.$.scrollMath`) the strategy reads and
writes: the per-axis enable flags, the simulated position and the four boundaries (numbers:
finite doubles). -/
structure ScrollMath where
  horizontal : Bool
  vertical : Bool
  x : ℚ
  y : ℚ
  topBoundary : ℚ
  bottomBoundary : ℚ
  leftBoundary : ℚ
  rightBoundary : ℚ

/-- State of an `enyo.TouchScrollStrategy`.  The axis policies are the published strings
(`"scroll"`, `"auto"`, `"hidden"`, `"default"`); `scrollNode` is the realized scroll node, if
any. -/
structure Strategy where
  /-- Identity of `this`. -/
  self : Nat
  preventDragPropagation : Bool
  vertical : String
  horizontal : String
  dragging : Bool
  scrollNode : Ref
  scrollMath : ScrollMath

/-- The measured sizes `getScrollBounds()` returns, as far as `calcAutoScrolling` reads them. -/
structure ScrollBounds where
  width : ℚ
  height : ℚ
  clientWidth : ℚ
  clientHeight : ℚ

/-- The fields of a `dragstart` event the should-drag negotiation writes. -/
structure DragEvent where
  dragger : Ref
  boundaryDragger : Ref
  deriving DecidableEq, Repr

/-- Calls `dragstart` makes after the negotiation. -/
inductive DragEffect where
  /-- Effect `inEvent.preventDefault()`. -/
  | preventDefault
  /-- Effect `this.syncScrollMath()`. -/
  | syncScrollMath
  /-- Effect `this.$.scrollMath.startDrag(inEvent)`. -/
  | startDrag (inEvent : DragEvent)
  deriving DecidableEq, Repr

/-- Outcome of `dragstart`: the strategy, the event as tagged by the negotiation, the calls made
after the negotiation, and the returned value (`none` is `undefined`; a handler stops the
propagation of its event by returning `true`). -/
structure DragStartResult where
  strategy : Strategy
  event : DragEvent
  effects : List DragEffect
  returned : Option Bool

/-- The object `getOverScrollBounds()` returns. -/
structure OverScrollBounds where
  overleft : Int
  overtop : Int
  deriving DecidableEq, Repr

/-! ## The strategy's methods -/

/-- Method `horizontalChanged()`: `scrollMath.horizontal = (this.horizontal != "hidden")`. -/
def horizontalChanged (s : Strategy) : Strategy :=
  { s with scrollMath := { s.scrollMath with horizontal := decide (s.horizontal ≠ "hidden") } }

/-- Method `verticalChanged()`: `scrollMath.vertical = (this.vertical != "hidden")`. -/
def verticalChanged (s : Strategy) : Strategy :=
  { s with scrollMath := { s.scrollMath with vertical := decide (s.vertical ≠ "hidden") } }

/-- Method `calcAutoScrolling()`; `getScrollBounds` is the value `this.getScrollBounds()`
returns when it is called. -/
def calcAutoScrolling (s : Strategy) (getScrollBounds : ScrollBounds) : Strategy :=
  let v : Bool := decide (s.vertical = "auto")
  let h : Bool := decide (s.horizontal = "auto") || decide (s.horizontal = "default")
  if (v || h) && s.scrollNode.isSome then
    let b := getScrollBounds
    let m := s.scrollMath
    let m := if v then { m with vertical := decide (b.height > b.clientHeight) } else m
    let m := if h then { m with horizontal := decide (b.width > b.clientWidth) } else m
    { s with scrollMath := m }
  else s

/-- Method `dragstart(inSender, inEvent)`; `doShouldDrag` is the bubbling of the `onShouldDrag`
event through the `shouldDrag` handlers of the strategy and its ancestors, which tags the event
(any tagging is allowed for).  Of the strategy only the `dragging` flag is followed. -/
def dragstart (s : Strategy) (doShouldDrag : DragEvent → DragEvent) (inEvent : DragEvent) :
    DragStartResult :=
  let inEvent := doShouldDrag inEvent
  let dragging : Bool :=
    decide (inEvent.dragger = some s.self) ||
      (!inEvent.dragger.isSome && decide (inEvent.boundaryDragger = some s.self))
  let s := { s with dragging := dragging }
  if dragging then
    { strategy := s
      event := inEvent
      effects := [DragEffect.preventDefault, DragEffect.syncScrollMath, DragEffect.startDrag inEvent]
      returned := if s.preventDragPropagation then some true else none }
  else
    { strategy := s, event := inEvent, effects := [], returned := none }

/-- Method `getOverScrollBounds()`.  The subtraction `a - b` of two numbers is the exact
difference rounded to the nearest double, `rnd (a - b)`. -/
def getOverScrollBounds (rnd : ℚ → ℚ) (m : ScrollMath) : OverScrollBounds :=
  { overleft :=
      Int.floor (if m.x > m.leftBoundary then rnd (m.leftBoundary - m.x)
                 else rnd (m.rightBoundary - m.x))
    overtop :=
      Int.floor (if m.y > m.topBoundary then rnd (m.topBoundary - m.y)
                 else rnd (m.bottomBoundary - m.y)) }

/-! ## Sequences of calls on one component -/

/-- A call on a component from outside, with what its collaborators do during the call:

* one of the two registration methods;
* an assignment to `owner` followed by `ownerChanged()`, with the `instanceof enyo.Component`
  facts of that moment and whether the inherited `ownerChanged` raises (it does for an owner
  without `addComponent`);
* a `bubbleUp`, with the `destroyed` flags of that moment, whether the inherited `bubbleUp`
  raises, and which targets' `dispatchBubble` raises. -/
inductive Op where
  | addDispatchTarget (target : Ref)
  | removeDispatchTarget (target : Ref)
  | setOwner (owner : Ref) (isComponent : Nat → Bool) (inheritedRaises : Bool)
  | bubbleUp (destroyed : Nat → Bool) (inheritedRaises : Bool) (handlerRaises : Nat → Bool)
      (name : String) (event : Event) (sender : Ref)

/-- Outcome of one call: the state the component is left in, and whether the call raised. -/
structure Outcome where
  component : Component
  raised : Bool

/-- A snapshot entry at which `bubbleUp` ends with an exception: a non-null, non-destroyed
target whose `dispatchBubble` raises. -/
def raisesAt (destroyed handlerRaises : Nat → Bool) : Ref → Bool
  | some t => !destroyed t && handlerRaises t
  | none => false

/-- The entries of the snapshot the iteration of `bubbleUp` gets through before the first
target whose handler raises (all of them when none raises). -/
def processed (destroyed handlerRaises : Nat → Bool) (snapshot : List Ref) : List Ref :=
  snapshot.takeWhile fun r => !raisesAt destroyed handlerRaises r

/-- One call: the state it leaves, whether it returns or raises.

* `addDispatchTarget`, `removeDispatchTarget`: as the methods; when they raise, nothing was
  written.
* `setOwner`: the property is assigned, then `ownerChanged()` runs; when the inherited method
  (the first statement of `ownerChanged`) raises, the rest of `ownerChanged` does not run.
* `bubbleUp`: when the inherited bubbling runs and raises, nothing else happens; when no
  handler raises, as the method; otherwise the iteration ends at the first target whose
  handler raises, after the callback has run on the entries before it.

The handlers leave the component alone: what a handler does to the component by calling its
methods is a further `Op` of the sequence. -/
def step (c : Component) : Op → Outcome
  | .addDispatchTarget target =>
    match addDispatchTarget c target with
    | .ok c1 => ⟨c1, false⟩
    | .error _ => ⟨c, true⟩
  | .removeDispatchTarget target =>
    match removeDispatchTarget c target with
    | .ok c1 => ⟨c1, false⟩
    | .error _ => ⟨c, true⟩
  | .setOwner owner isComponent inheritedRaises =>
    if inheritedRaises = true then ⟨{ c with owner := owner }, true⟩
    else ⟨ownerChanged ⟨fun _ => false, isComponent, fun _ c => c⟩ { c with owner := owner }, false⟩
  | .bubbleUp destroyed inheritedRaises handlerRaises name event sender =>
    if c._default_dispatch = true ∧ inheritedRaises = true then ⟨c, true⟩
    else if (clone c._dispatch_targets).all (fun r => !raisesAt destroyed handlerRaises r) then
      match bubbleUp ⟨destroyed, fun _ => false, fun _ c => c⟩ c name event sender with
      | .ok r => ⟨r.1, false⟩
      | .error _ => ⟨c, true⟩
    else
      match forEach (processed destroyed handlerRaises (clone c._dispatch_targets))
          (bubbleUpEach ⟨destroyed, fun _ => false, fun _ c => c⟩ name event sender)
          (some Receiver.component) (c, []) with
      | .ok r => ⟨r.1, true⟩
      | .error _ => ⟨c, true⟩

/-- The state after `create()` and the calls `ops`, in order; a call that raised was caught by
its caller. -/
def run (c0 : Component) (ops : List Op) : Component :=
  ops.foldl (fun c op => (step c op).component) (create c0)

/-- A component together with bookkeeping that the code does not have: the number of calls
made so far, for every target the number of the call that last appended it to the list, and
the number of the call that last assigned the owner. -/
structure Tracked where
  component : Component
  clock : Nat
  registeredAt : Ref → Nat
  ownerSetAt : Nat

/-- One call on a tracked component: the component steps as in `step`, the bookkeeping records
an append (the list changed in `addDispatchTarget`) and an owner assignment. -/
def stepTracked (s : Tracked) (op : Op) : Tracked :=
  let c := (step s.component op).component
  match op with
  | .addDispatchTarget target =>
    if c._dispatch_targets = s.component._dispatch_targets then
      { s with component := c, clock := s.clock + 1 }
    else
      { s with component := c, clock := s.clock + 1,
               registeredAt := Function.update s.registeredAt target (s.clock + 1) }
  | .setOwner _ _ _ => { s with component := c, clock := s.clock + 1, ownerSetAt := s.clock + 1 }
  | _ => { s with component := c, clock := s.clock + 1 }

/-- The tracked state after `create()` and the calls `ops`. -/
def runTracked (c0 : Component) (ops : List Op) : Tracked :=
  ops.foldl stepTracked ⟨create c0, 0, fun _ => 0, 0⟩

/-! ## Vocabulary of the statements -/

/-- A list entry that is an object whose `destroyed` flag is set. -/
def isDestroyed (env : Env) : Ref → Bool
  | some t => env.destroyed t
  | none => false

/-- The `dispatchBubble` calls on the non-null, non-destroyed entries of `L`, in list order. -/
def bubbleForwards (env : Env) (name : String) (event : Event) (sender : Ref) (L : List Ref) :
    List Effect :=
  L.filterMap fun r =>
    match r with
    | some t => if env.destroyed t = true then none else some (Effect.dispatchBubble t name event sender)
    | none => none

/-- The list after removing, for each entry of the snapshot `R` in turn, the first occurrence
of that entry when it is destroyed. -/
def prune (env : Env) (S R : List Ref) : List Ref :=
  R.foldl (fun S r => if isDestroyed env r = true then S.erase r else S) S

/-- What the statements use of `rnd`, the rounding of an exact result to the nearest double
(IEEE 754 round to nearest with gradual underflow, results within the finite range): it is
monotone, `0` and `1` are doubles, and the difference of two distinct doubles does not round
to zero. -/
structure IsRounding (rnd : ℚ → ℚ) : Prop where
  mono : ∀ x y, x ≤ y → rnd x ≤ rnd y
  zero : rnd 0 = 0
  one : rnd 1 = 1
  sub_ne_zero : ∀ a b, rnd a = a → rnd b = b → a ≠ b → rnd (a - b) ≠ 0

/-- The position and the boundaries of the scroll-math object are doubles. -/
def ScrollMath.IsDouble (rnd : ℚ → ℚ) (m : ScrollMath) : Prop :=
  rnd m.x = m.x ∧ rnd m.y = m.y ∧
  rnd m.topBoundary = m.topBoundary ∧ rnd m.bottomBoundary = m.bottomBoundary ∧
  rnd m.leftBoundary = m.leftBoundary ∧ rnd m.rightBoundary = m.rightBoundary

/-- The properties of a dispatch-target list `L` after the calls `pre`: no duplicates, not the
component itself, no null entry, the entries in the order of the calls that appended them
(`registeredAt a` is the number of an `addDispatchTarget(a)` call of `pre`, strictly increasing
along `L`), and an entry that is the current owner was appended before the owner was assigned. -/
def ListInv (self : Nat) (owner : Ref) (registeredAt : Ref → Nat) (ownerSetAt : Nat)
    (pre : List Op) (L : List Ref) : Prop :=
  L.Nodup ∧ some self ∉ L ∧ none ∉ L ∧
  L.Pairwise (fun a b => registeredAt a < registeredAt b) ∧
  (∀ a ∈ L, 1 ≤ registeredAt a ∧ registeredAt a ≤ pre.length ∧
      pre[registeredAt a - 1]? = some (Op.addDispatchTarget a)) ∧
  (∀ a ∈ L, a = owner → registeredAt a < ownerSetAt)

/-- The invariant of a tracked component with identity `self` and first owner `owner0` after
the calls `pre`. -/
def TrackedInv (self : Nat) (owner0 : Ref) (pre : List Op) (s : Tracked) : Prop :=
  s.component.self = self ∧ s.clock = pre.length ∧
  ((s.ownerSetAt = 0 ∧ s.component.owner = owner0) ∨
    (1 ≤ s.ownerSetAt ∧ s.ownerSetAt ≤ pre.length ∧
      ∃ isComponent inheritedRaises,
        pre[s.ownerSetAt - 1]? =
          some (Op.setOwner s.component.owner isComponent inheritedRaises))) ∧
  ∃ L, s.component._dispatch_targets = some L ∧
    ListInv self s.component.owner s.registeredAt s.ownerSetAt pre L

/-! ## Facts about the array primitives -/

theorem indexOf_ge (xs : List Ref) (t : Ref) : -1 ≤ indexOf xs t := by
  induction xs with
  | nil => simp [indexOf]
  | cons x rest ih =>
    simp only [indexOf]
    split_ifs <;> omega

theorem indexOf_eq_neg_one_iff (xs : List Ref) (t : Ref) : indexOf xs t = -1 ↔ t ∉ xs := by
  induction xs with
  | nil => simp [indexOf]
  | cons x rest ih =>
    have hge := indexOf_ge rest t
    simp only [indexOf]
    by_cases hx : x = t
    · simp [hx]
    · have hx' : ¬ t = x := fun h => hx h.symm
      simp only [hx, if_false, List.mem_cons, hx', false_or]
      rw [← ih]
      constructor
      · intro h
        by_contra hne
        rw [if_neg hne] at h
        omega
      · intro h
        rw [if_pos h]

theorem splice_zero_cons (x : Ref) (rest : List Ref) : splice (x :: rest) 0 1 = rest := by
  simp [splice]

theorem splice_succ_cons (x : Ref) (rest : List Ref) (i : Int) (hi : 0 ≤ i) :
    splice (x :: rest) (i + 1) 1 = x :: splice rest i 1 := by
  obtain ⟨n, rfl⟩ := Int.eq_ofNat_of_zero_le hi
  have h1 : ¬ ((n : Int) + 1 < 0) := by omega
  have h2 : ¬ ((n : Int) < 0) := by omega
  have h3 : ((n : Int) + 1).toNat = n + 1 := by omega
  simp only [splice, h1, h2, if_false, h3, Int.toNat_ofNat, List.length_cons]
  have h4 : min (n + 1) (rest.length + 1) = min n rest.length + 1 := by omega
  rw [h4]
  simp

theorem splice_indexOf (xs : List Ref) (t : Ref) (h : t ∈ xs) :
    splice xs (indexOf xs t) 1 = xs.erase t := by
  induction xs with
  | nil => simp at h
  | cons x rest ih =>
    by_cases hx : x = t
    · subst hx
      simp [indexOf, splice_zero_cons]
    · have hmem : t ∈ rest := by
        rcases List.mem_cons.mp h with h | h
        · exact absurd h.symm hx
        · exact h
      have hne : indexOf rest t ≠ -1 := fun h0 => (indexOf_eq_neg_one_iff rest t).mp h0 hmem
      have hge := indexOf_ge rest t
      have hidx : indexOf (x :: rest) t = indexOf rest t + 1 := by
        simp [indexOf, hx, hne]
      rw [hidx, splice_succ_cons x rest _ (by omega), ih hmem]
      have hb : (x == t) = false := by simpa using hx
      simp [List.erase_cons, hb]

/-! ## Characterisation of `addDispatchTarget` and `removeDispatchTarget` -/

theorem removeDispatchTarget_eq_erase (c : Component) (L : List Ref) (t : Ref)
    (hL : c._dispatch_targets = some L) :
    removeDispatchTarget c t = .ok { c with _dispatch_targets := some (L.erase t) } := by
  unfold removeDispatchTarget
  rw [hL]
  by_cases hmem : t ∈ L
  · have hne : indexOf L t ≠ -1 := fun h0 => (indexOf_eq_neg_one_iff L t).mp h0 hmem
    simp only [ne_eq, hne, not_false_eq_true, if_true, splice_indexOf L t hmem]
  · have he : indexOf L t = -1 := (indexOf_eq_neg_one_iff L t).mpr hmem
    simp only [ne_eq, he, not_true_eq_false, if_false, List.erase_of_not_mem hmem]
    cases c
    simp_all

theorem addDispatchTarget_eq (c : Component) (L : List Ref) (t : Ref)
    (hL : c._dispatch_targets = some L) :
    addDispatchTarget c t =
      .ok (if t = none ∨ t = some c.self ∨ t = c.owner ∨ t ∈ L then c
           else { c with _dispatch_targets := some (L ++ [t]) }) := by
  unfold addDispatchTarget
  cases t with
  | none => simp
  | some n =>
    by_cases hs : c.self = n
    · simp [hs]
    · have hs' : ¬ n = c.self := fun h => hs h.symm
      simp only [hs, if_false, hL]
      by_cases hmem : some n ∈ L
      · have hne : indexOf L (some n) ≠ -1 :=
          fun h0 => (indexOf_eq_neg_one_iff L _).mp h0 hmem
        have hb : ¬ bitwiseNot (indexOf L (some n)) = 0 := by
          unfold bitwiseNot
          omega
        simp [hb, hmem]
      · have he : indexOf L (some n) = -1 := (indexOf_eq_neg_one_iff L _).mpr hmem
        have hb : bitwiseNot (indexOf L (some n)) = 0 := by
          rw [he]
          rfl
        by_cases ho : c.owner = some n
        · simp [hb, ho]
        · have ho' : ¬ some n = c.owner := fun h => ho h.symm
          simp [hb, ho, ho', hmem, hs']

/-! ## The snapshot iteration of `bubbleUp` -/

theorem filter_erase_of_false (p : Ref → Bool) (a : Ref) (S : List Ref) (h : p a = false) :
    (S.erase a).filter p = S.filter p := by
  induction S with
  | nil => simp
  | cons x S ih =>
    by_cases hx : x = a
    · subst hx
      simp [h]
    · have hb : (x == a) = false := by simpa using hx
      simp only [List.erase_cons, hb, Bool.false_eq_true, if_false, List.filter_cons, ih]

theorem prune_nil (env : Env) (S : List Ref) : prune env S [] = S := rfl

theorem prune_cons (env : Env) (S R : List Ref) (r : Ref) :
    prune env S (r :: R) = prune env (if isDestroyed env r = true then S.erase r else S) R := rfl

theorem prune_filter (env : Env) (R S : List Ref) :
    (prune env S R).filter (fun r => !isDestroyed env r) =
      S.filter (fun r => !isDestroyed env r) := by
  induction R generalizing S with
  | nil => rfl
  | cons r R ih =>
    rw [prune_cons, ih]
    by_cases hr : isDestroyed env r = true
    · rw [if_pos hr]
      exact filter_erase_of_false _ r S (by simp [hr])
    · rw [if_neg hr]

theorem prune_count (env : Env) (x : Ref) (hx : isDestroyed env x = true) (R S : List Ref) :
    (prune env S R).count x = S.count x - R.count x := by
  induction R generalizing S with
  | nil => simp [prune_nil]
  | cons r R ih =>
    rw [prune_cons, ih]
    by_cases hxr : r = x
    · subst hxr
      rw [if_pos hx, List.count_erase_self, List.count_cons_self]
      omega
    · have hne : x ≠ r := fun h => hxr h.symm
      rw [List.count_cons_of_ne hne]
      by_cases hr : isDestroyed env r = true
      · rw [if_pos hr, List.count_erase_of_ne hne]
      · rw [if_neg hr]

theorem prune_self (env : Env) (L : List Ref) :
    prune env L L = L.filter (fun r => !isDestroyed env r) := by
  rw [← prune_filter env L L]
  symm
  rw [List.filter_eq_self]
  intro a ha
  by_contra hd
  have hd1 : isDestroyed env a = true := by simpa using hd
  have hc := prune_count env a hd1 L L
  rw [Nat.sub_self] at hc
  exact (List.count_eq_zero.mp hc) ha

theorem bubbleForwards_nil (env : Env) (name : String) (event : Event) (sender : Ref) :
    bubbleForwards env name event sender [] = [] := rfl

theorem bubbleUp_foldlM (env : Env) (name : String) (event : Event) (sender : Ref)
    (hH : ∀ t c, (env.handler t c)._dispatch_targets = c._dispatch_targets) :
    ∀ (R : List Ref) (c : Component) (S : List Ref) (tr : List Effect),
      c._dispatch_targets = some S →
      ∃ c1, R.foldlM (bubbleUpEach env name event sender Receiver.component) (c, tr)
          = .ok (c1, tr ++ bubbleForwards env name event sender R) ∧
        c1._dispatch_targets = some (prune env S R) := by
  intro R
  induction R with
  | nil =>
    intro c S tr hS
    exact ⟨c, by simp [bubbleForwards_nil]; rfl, by simpa [prune_nil] using hS⟩
  | cons r R ih =>
    intro c S tr hS
    rw [List.foldlM_cons]
    cases r with
    | none =>
      obtain ⟨c1, h1, h2⟩ := ih c S tr hS
      refine ⟨c1, ?_, ?_⟩
      · simp only [bubbleUpEach]
        rw [show bubbleForwards env name event sender (none :: R)
              = bubbleForwards env name event sender R from rfl, ← h1]
        rfl
      · rw [h2, prune_cons]
        simp [isDestroyed]
    | some t =>
      by_cases hd : env.destroyed t = true
      · obtain ⟨c1, h1, h2⟩ :=
          ih { c with _dispatch_targets := some (S.erase (some t)) } (S.erase (some t)) tr rfl
        refine ⟨c1, ?_, ?_⟩
        · simp only [bubbleUpEach, hd, if_true, removeDispatchTarget_eq_erase c S (some t) hS]
          have hf : bubbleForwards env name event sender (some t :: R)
              = bubbleForwards env name event sender R := by
            simp [bubbleForwards, hd]
          rw [hf, ← h1]
          rfl
        · rw [h2, prune_cons]
          simp [isDestroyed, hd]
      · obtain ⟨c1, h1, h2⟩ :=
          ih (env.handler t c) S (tr ++ [Effect.dispatchBubble t name event sender])
            ((hH t c).trans hS)
        refine ⟨c1, ?_, ?_⟩
        · simp only [bubbleUpEach, hd, Bool.false_eq_true, if_false]
          have hf : bubbleForwards env name event sender (some t :: R)
              = Effect.dispatchBubble t name event sender ::
                  bubbleForwards env name event sender R := by
            simp [bubbleForwards, hd]
          rw [hf]
          rw [List.append_assoc, List.singleton_append] at h1
          exact h1
        · rw [h2, prune_cons]
          simp [isDestroyed, hd]

theorem bubbleUp_ok (env : Env) (c : Component) (L : List Ref) (name : String) (event : Event)
    (sender : Ref) (hL : c._dispatch_targets = some L)
    (hH : ∀ t c0, (env.handler t c0)._dispatch_targets = c0._dispatch_targets) :
    ∃ c1, bubbleUp env c name event sender =
        .ok (c1, (if c._default_dispatch = true then [Effect.inheritedBubbleUp name event sender]
                   else []) ++ bubbleForwards env name event sender L) ∧
      c1._dispatch_targets = some (L.filter (fun r => !isDestroyed env r)) := by
  obtain ⟨c1, h1, h2⟩ := bubbleUp_foldlM env name event sender hH L c L
    (if c._default_dispatch = true then [Effect.inheritedBubbleUp name event sender] else []) hL
  refine ⟨c1, ?_, ?_⟩
  · simp only [bubbleUp, forEach, clone, hL, Option.getD_some]
    exact h1
  · rw [h2, prune_self]

theorem count_eq_one_of_nodup (L : List Ref) (a : Ref) (hnd : L.Nodup) (ha : a ∈ L) :
    L.count a = 1 := by
  induction L with
  | nil => simp at ha
  | cons x L ih =>
    rw [List.nodup_cons] at hnd
    by_cases hx : a = x
    · subst hx
      rw [List.count_cons_self, List.count_eq_zero.mpr hnd.1]
    · rw [List.count_cons_of_ne hx]
      rcases List.mem_cons.mp ha with h | h
      · exact absurd h hx
      · exact ih hnd.2 h

theorem bubbleForwards_cons_none (env : Env) (name : String) (event : Event) (sender : Ref)
    (L : List Ref) :
    bubbleForwards env name event sender (none :: L) = bubbleForwards env name event sender L :=
  rfl

theorem bubbleForwards_cons_some (env : Env) (name : String) (event : Event) (sender : Ref)
    (u : Nat) (L : List Ref) :
    bubbleForwards env name event sender (some u :: L) =
      if env.destroyed u = true then bubbleForwards env name event sender L
      else Effect.dispatchBubble u name event sender :: bubbleForwards env name event sender L := by
  by_cases hu : env.destroyed u = true <;> simp [bubbleForwards, hu]

theorem bubbleForwards_count (env : Env) (name : String) (event : Event) (sender : Ref)
    (t : Nat) (L : List Ref) :
    (bubbleForwards env name event sender L).count (Effect.dispatchBubble t name event sender) =
      if env.destroyed t = true then 0 else L.count (some t) := by
  induction L with
  | nil => simp [bubbleForwards_nil]
  | cons r L ih =>
    cases r with
    | none =>
      rw [bubbleForwards_cons_none, ih, List.count_cons_of_ne (by simp)]
    | some u =>
      rw [bubbleForwards_cons_some]
      by_cases hu : env.destroyed u = true
      · rw [if_pos hu, ih]
        by_cases ht : env.destroyed t = true
        · simp [ht]
        · have hne : t ≠ u := fun h => ht (h ▸ hu)
          rw [List.count_cons_of_ne (by simpa using hne)]
      · rw [if_neg hu]
        by_cases htu : t = u
        · subst htu
          rw [List.count_cons_self, ih, if_neg hu, if_neg hu, List.count_cons_self]
        · rw [List.count_cons_of_ne (by simpa using htu), ih,
            List.count_cons_of_ne (by simpa using htu)]

theorem bubbleForwards_no_inherited (env : Env) (name : String) (event : Event) (sender : Ref)
    (L : List Ref) :
    Effect.inheritedBubbleUp name event sender ∉ bubbleForwards env name event sender L := by
  induction L with
  | nil => simp [bubbleForwards_nil]
  | cons r L ih =>
    cases r with
    | none => rwa [bubbleForwards_cons_none]
    | some u =>
      rw [bubbleForwards_cons_some]
      split_ifs
      · exact ih
      · simp [ih]

/-! ## `ownerChanged` and the iteration of `bubbleDelegation` -/

theorem ownerChanged_default_dispatch (env : Env) (c : Component) :
    (ownerChanged env c)._default_dispatch = c._default_dispatch := by
  unfold ownerChanged
  split
  · split_ifs <;> rfl
  · rfl

theorem bubbleTarget_ownerChanged_of_disabled (env : Env) (c : Component)
    (h : c._default_dispatch = false) : bubbleTarget (ownerChanged env c) = none := by
  simp [bubbleTarget, ownerChanged_default_dispatch, h]

theorem bubbleDelegation_foldlM_raises (env : Env) (delegate : Ref) (prop : String)
    (name : String) (event : Event) (sender : Ref) :
    ∀ (R : List Ref) (st : Component × List Effect),
      (∃ t, some t ∈ R ∧ env.destroyed t = true) →
      R.foldlM (bubbleDelegationEach env delegate prop name event sender Receiver.enyo) st
        = .error JSError.typeError := by
  intro R
  induction R with
  | nil =>
    rintro st ⟨t, ht, -⟩
    simp at ht
  | cons r R ih =>
    rintro st ⟨t, ht, hd⟩
    rw [List.foldlM_cons]
    cases r with
    | none =>
      have ht1 : some t ∈ R := by simpa using ht
      exact ih st ⟨t, ht1, hd⟩
    | some u =>
      by_cases hu : env.destroyed u = true
      · simp only [bubbleDelegationEach, hu, if_true]
        rfl
      · have ht1 : some t ∈ R := by
          rcases List.mem_cons.mp ht with h | h
          · cases h
            exact absurd hd hu
          · exact h
        simp only [bubbleDelegationEach, hu, Bool.false_eq_true, if_false]
        exact ih _ ⟨t, ht1, hd⟩

theorem bubbleDelegation_raises_of_destroyed (env : Env) (c : Component) (L : List Ref)
    (delegate : Ref) (prop : String) (name : String) (event : Event) (sender : Ref)
    (hL : c._dispatch_targets = some L) (h : ∃ t, some t ∈ L ∧ env.destroyed t = true) :
    bubbleDelegation env c delegate prop name event sender = .error JSError.typeError := by
  simp only [bubbleDelegation, forEach, clone, hL, Option.getD_some, Option.getD_none]
  exact bubbleDelegation_foldlM_raises env delegate prop name event sender L _ h

/-! ## The dispatch mixin -/

/-- C1: on a component whose dispatch-target list is `L`, `addDispatchTarget(t)` does not raise;
it leaves the list (and every other field) unchanged when `t` is null, the component itself,
the current owner, or already in `L`, and otherwise the new list is `L` with `t` appended at
the end. -/
theorem addDispatchTarget_spec (c : Component) (L : List Ref) (t : Ref)
    (hL : c._dispatch_targets = some L) :
    ∃ c1, addDispatchTarget c t = .ok c1 ∧
      c1.self = c.self ∧ c1.owner = c.owner ∧
      c1._default_dispatch = c._default_dispatch ∧ c1._default_target = c._default_target ∧
      ((t = none ∨ t = some c.self ∨ t = c.owner ∨ t ∈ L) → c1._dispatch_targets = some L) ∧
      (¬ (t = none ∨ t = some c.self ∨ t = c.owner ∨ t ∈ L) →
        c1._dispatch_targets = some (L ++ [t])) := by
  refine ⟨_, addDispatchTarget_eq c L t hL, ?_⟩
  by_cases h : t = none ∨ t = some c.self ∨ t = c.owner ∨ t ∈ L
  · simp [h, hL]
  · simp [h]

/-- Witness of C1: a component `0` owned by `9` with list `[1]` registers `2`. -/
theorem addDispatchTarget_spec_witness :
    (⟨0, some 9, some [some 1], false, none⟩ : Component)._dispatch_targets = some [some 1] ∧
    ∃ c1, addDispatchTarget ⟨0, some 9, some [some 1], false, none⟩ (some 2) = .ok c1 ∧
      c1.self = 0 ∧ c1.owner = some 9 ∧
      c1._default_dispatch = false ∧ c1._default_target = none ∧
      ((some 2 = none ∨ some 2 = some 0 ∨ some 2 = some 9 ∨ some 2 ∈ [some 1]) →
        c1._dispatch_targets = some [some 1]) ∧
      (¬ ((some 2 : Ref) = none ∨ some 2 = some 0 ∨ some 2 = some 9 ∨ some 2 ∈ [some 1]) →
        c1._dispatch_targets = some ([some 1] ++ [some 2])) :=
  ⟨rfl, addDispatchTarget_spec ⟨0, some 9, some [some 1], false, none⟩ [some 1] (some 2) rfl⟩

/-- C2: on a component whose dispatch-target list is `L` and whose targets' handlers leave the
list alone, `bubbleUp(name, event, sender)` does not raise; (i) it performs the inherited
bubbling, first, exactly when `_default_dispatch` is set; (ii) it then forwards `dispatchBubble`
to the non-null, non-destroyed entries of `L`, once for each entry, in list order, and never
to a destroyed target, so in a duplicate-free list every live target is called exactly once;
(iii) the list ends as `L` without its destroyed targets, the others in their original order. -/
theorem bubbleUp_spec (env : Env) (c : Component) (L : List Ref) (name : String) (event : Event)
    (sender : Ref) (hL : c._dispatch_targets = some L)
    (hH : ∀ t c0, (env.handler t c0)._dispatch_targets = c0._dispatch_targets) :
    ∃ c1 trace, bubbleUp env c name event sender = .ok (c1, trace) ∧
      trace = (if c._default_dispatch = true then [Effect.inheritedBubbleUp name event sender]
                else []) ++ bubbleForwards env name event sender L ∧
      (Effect.inheritedBubbleUp name event sender ∈ trace ↔ c._default_dispatch = true) ∧
      (∀ t, trace.count (Effect.dispatchBubble t name event sender) =
              if env.destroyed t = true then 0 else L.count (some t)) ∧
      (L.Nodup → ∀ t, some t ∈ L → env.destroyed t = false →
          trace.count (Effect.dispatchBubble t name event sender) = 1) ∧
      (∀ t, env.destroyed t = true → Effect.dispatchBubble t name event sender ∉ trace) ∧
      c1._dispatch_targets = some (L.filter (fun r => !isDestroyed env r)) := by
  obtain ⟨c1, h1, h2⟩ := bubbleUp_ok env c L name event sender hL hH
  have hcount : ∀ t, ((if c._default_dispatch = true then
        [Effect.inheritedBubbleUp name event sender] else []) ++
        bubbleForwards env name event sender L).count (Effect.dispatchBubble t name event sender)
        = if env.destroyed t = true then 0 else L.count (some t) := by
    intro t
    rw [List.count_append, bubbleForwards_count]
    split_ifs <;> simp
  refine ⟨c1, _, h1, rfl, ?_, hcount, ?_, ?_, h2⟩
  · rw [List.mem_append]
    constructor
    · rintro (h | h)
      · by_contra hn
        rw [if_neg hn] at h
        simp at h
      · exact absurd h (bubbleForwards_no_inherited env name event sender L)
    · intro h
      left
      rw [if_pos h]
      simp
  · intro hnd t ht hd
    rw [hcount t, hd]
    simpa using count_eq_one_of_nodup L (some t) hnd ht
  · intro t hd hmem
    have := hcount t
    rw [if_pos hd] at this
    exact (List.count_eq_zero.mp this) hmem

/-- Witness of C2: default dispatch on, list `[1, null, 2, 3]` with `2` destroyed. -/
theorem bubbleUp_spec_witness :
    ∃ c1 trace,
      bubbleUp ⟨fun t => decide (t = 2), fun _ => true, fun _ c => c⟩
        ⟨0, some 9, some [some 1, none, some 2, some 3], true, some 9⟩ "ontap" ⟨"ontap", false, none⟩
        (some 0) = .ok (c1, trace) ∧
      trace = [Effect.inheritedBubbleUp "ontap" ⟨"ontap", false, none⟩ (some 0),
               Effect.dispatchBubble 1 "ontap" ⟨"ontap", false, none⟩ (some 0),
               Effect.dispatchBubble 3 "ontap" ⟨"ontap", false, none⟩ (some 0)] ∧
      c1._dispatch_targets = some [some 1, none, some 3] := by
  obtain ⟨c1, trace, h1, h2, -, -, -, -, h3⟩ :=
    bubbleUp_spec ⟨fun t => decide (t = 2), fun _ => true, fun _ c => c⟩
      ⟨0, some 9, some [some 1, none, some 2, some 3], true, some 9⟩
      [some 1, none, some 2, some 3] "ontap" ⟨"ontap", false, none⟩ (some 0) rfl (fun _ _ => rfl)
  refine ⟨c1, trace, h1, ?_, ?_⟩
  · rw [h2]
    rfl
  · rw [h3]
    rfl

/-- C3: `c.dispatchFrom(s, e)` returns true exactly when `e` was already tagged as claimed and
its claiming controller is `c`; an unclaimed `e` with `s` being `c` is tagged as claimed by `c`
and the call returns false; in every other case the event is left unchanged.  An event claimed
by `X` gives false on every component other than `X`, and two successive calls
`c.dispatchFrom(c, e)` on an unclaimed event return false and then true. -/
theorem dispatchFrom_spec (c : Nat) (s : Ref) (e : Event) :
    ((dispatchFrom c s e).1 = true ↔
        (e.dispatchedByController = true ∧ e.dispatchController = some c)) ∧
    ((e.dispatchedByController = false ∧ s = some c) →
        (dispatchFrom c s e).1 = false ∧
        (dispatchFrom c s e).2 =
          { e with dispatchedByController := true, dispatchController := some c }) ∧
    (¬ (e.dispatchedByController = false ∧ s = some c) → (dispatchFrom c s e).2 = e) ∧
    (e.dispatchedByController = true →
        (dispatchFrom c s e).2.dispatchController = e.dispatchController) ∧
    (∀ X : Nat, e.dispatchedByController = true → e.dispatchController = some X → c ≠ X →
        (dispatchFrom c s e).1 = false) ∧
    (e.dispatchedByController = false →
        (dispatchFrom c (some c) e).1 = false ∧
        (dispatchFrom c (some c) (dispatchFrom c (some c) e).2).1 = true) := by
  unfold dispatchFrom
  cases hd : e.dispatchedByController <;> by_cases hs : s = some c <;>
    by_cases hc : e.dispatchController = some c <;> simp [hd, hs, hc]

/-- C4: on a duplicate-free list `L`, `removeDispatchTarget(t)` does not raise, changes no other
field, leaves the list unchanged when `t` is not in `L`, and otherwise yields `L` with `t`
deleted and all other targets in their original relative order: `t` is no longer registered
and the length drops by exactly one. -/
theorem removeDispatchTarget_spec (c : Component) (L : List Ref) (t : Ref)
    (hL : c._dispatch_targets = some L) (hnd : L.Nodup) :
    ∃ c1 L1, removeDispatchTarget c t = .ok c1 ∧ c1._dispatch_targets = some L1 ∧
      c1.self = c.self ∧ c1.owner = c.owner ∧
      c1._default_dispatch = c._default_dispatch ∧ c1._default_target = c._default_target ∧
      (t ∉ L → L1 = L) ∧
      (t ∈ L → L1 = L.filter (fun x => decide (x ≠ t)) ∧ t ∉ L1 ∧ L1.length + 1 = L.length) := by
  refine ⟨_, L.erase t, removeDispatchTarget_eq_erase c L t hL, rfl, rfl, rfl, rfl, rfl, ?_, ?_⟩
  · intro h
    exact List.erase_of_not_mem h
  · intro h
    refine ⟨?_, ?_, ?_⟩
    · rw [hnd.erase_eq_filter]
      apply List.filter_congr
      intro x _
      by_cases hx : x = t <;> simp [hx]
    · exact fun hm => (hnd.mem_erase_iff.mp hm).1 rfl
    · rw [List.length_erase_of_mem h]
      have : 0 < L.length := List.length_pos_of_mem h
      omega

/-- Witness of C4: removing `2` from `[1, 2, 3]` gives `[1, 3]`. -/
theorem removeDispatchTarget_spec_witness :
    ∃ c1, removeDispatchTarget ⟨0, none, some [some 1, some 2, some 3], false, none⟩ (some 2)
        = .ok c1 ∧ c1._dispatch_targets = some [some 1, some 3] := by
  obtain ⟨c1, L1, h1, h2, -, -, -, -, -, h3⟩ :=
    removeDispatchTarget_spec ⟨0, none, some [some 1, some 2, some 3], false, none⟩
      [some 1, some 2, some 3] (some 2) rfl (by decide)
  refine ⟨c1, h1, ?_⟩
  rw [h2, (h3 (by decide)).1]
  decide

/-- C5 (the code at the failing input): a created component with `_default_dispatch` false gets
the component `7` as its owner; after `ownerChanged()` the default target is the owner, but
`_default_dispatch` is still false and `bubbleTarget` is `undefined`. -/
theorem ownerChanged_leaves_default_dispatch :
    (ownerChanged ⟨fun _ => false, fun _ => true, fun _ c => c⟩
        { create ⟨0, none, none, false, none⟩ with owner := some 7 })._default_target = some 7 ∧
    (ownerChanged ⟨fun _ => false, fun _ => true, fun _ c => c⟩
        { create ⟨0, none, none, false, none⟩ with owner := some 7 })._default_dispatch = false ∧
    bubbleTarget (ownerChanged ⟨fun _ => false, fun _ => true, fun _ c => c⟩
        { create ⟨0, none, none, false, none⟩ with owner := some 7 }) = none := by
  refine ⟨rfl, rfl, rfl⟩

/-- C7 (the code at the failing input): a component with targets `[1, 2, 3]`, of which `2` is
destroyed.  `bubbleDelegation` forwards to `1` and then raises a `TypeError` at `2`, because its
callback runs without the component as `this`; `bubbleUp` on the same state returns and leaves
the list `[1, 3]`. -/
theorem bubbleDelegation_raises_at_destroyed_target :
    bubbleDelegation ⟨fun t => decide (t = 2), fun _ => true, fun _ c => c⟩
        ⟨0, none, some [some 1, some 2, some 3], false, none⟩ (some 5) "tapHandler" "ontap"
        ⟨"ontap", false, none⟩ (some 0) = .error JSError.typeError ∧
    (bubbleUp ⟨fun t => decide (t = 2), fun _ => true, fun _ c => c⟩
        ⟨0, none, some [some 1, some 2, some 3], false, none⟩ "ontap"
        ⟨"ontap", false, none⟩ (some 0)).map (fun r => r.1._dispatch_targets)
      = .ok (some [some 1, some 3]) := by
  constructor <;> rfl

/-! ## Invariants of the dispatch-target list -/

theorem ListInv.sublist {self : Nat} {owner : Ref} {registeredAt : Ref → Nat} {ownerSetAt : Nat}
    {pre : List Op} {L L1 : List Ref} (h : ListInv self owner registeredAt ownerSetAt pre L)
    (hs : L1.Sublist L) : ListInv self owner registeredAt ownerSetAt pre L1 := by
  obtain ⟨h1, h2, h3, h4, h5, h6⟩ := h
  exact ⟨h1.sublist hs, fun hm => h2 (hs.subset hm), fun hm => h3 (hs.subset hm), h4.sublist hs,
    fun a ha => h5 a (hs.subset ha), fun a ha => h6 a (hs.subset ha)⟩

theorem getElem?_concat_of_some {pre : List Op} {i : Nat} {x : Op} (op : Op)
    (h : pre[i]? = some x) : (pre ++ [op])[i]? = some x := by
  have hi : i < pre.length := by
    by_contra hn
    rw [List.getElem?_eq_none (Nat.le_of_not_lt hn)] at h
    exact Option.noConfusion h
  rw [List.getElem?_append_left hi]
  exact h

theorem ListInv.concat {self : Nat} {owner : Ref} {registeredAt : Ref → Nat} {ownerSetAt : Nat}
    {pre : List Op} {L : List Ref} (h : ListInv self owner registeredAt ownerSetAt pre L)
    (op : Op) : ListInv self owner registeredAt ownerSetAt (pre ++ [op]) L := by
  obtain ⟨h1, h2, h3, h4, h5, h6⟩ := h
  refine ⟨h1, h2, h3, h4, fun a ha => ?_, h6⟩
  obtain ⟨ha1, ha2, ha3⟩ := h5 a ha
  refine ⟨ha1, ?_, getElem?_concat_of_some op ha3⟩
  rw [List.length_append]
  exact Nat.le_trans ha2 (Nat.le_add_right _ _)

theorem removeDispatchTarget_fields (c c1 : Component) (t : Ref)
    (h : removeDispatchTarget c t = .ok c1) : c1.self = c.self ∧ c1.owner = c.owner := by
  cases hL : c._dispatch_targets with
  | none => simp [removeDispatchTarget, hL] at h
  | some L =>
    rw [removeDispatchTarget_eq_erase c L t hL] at h
    cases h
    exact ⟨rfl, rfl⟩

theorem bubbleUp_foldlM_fields (env : Env) (name : String) (event : Event) (sender : Ref)
    (hH : ∀ t c, (env.handler t c).self = c.self ∧ (env.handler t c).owner = c.owner) :
    ∀ (R : List Ref) (st r : Component × List Effect),
      R.foldlM (bubbleUpEach env name event sender Receiver.component) st = .ok r →
      r.1.self = st.1.self ∧ r.1.owner = st.1.owner := by
  intro R
  induction R with
  | nil =>
    intro st r h
    cases h
    exact ⟨rfl, rfl⟩
  | cons x R ih =>
    intro st r h
    rw [List.foldlM_cons] at h
    cases hx : bubbleUpEach env name event sender Receiver.component st x with
    | error e =>
      rw [hx] at h
      cases h
    | ok st1 =>
      rw [hx] at h
      obtain ⟨h1, h2⟩ := ih st1 r h
      have hst : st1.1.self = st.1.self ∧ st1.1.owner = st.1.owner := by
        cases x with
        | none =>
          simp only [bubbleUpEach] at hx
          cases hx
          exact ⟨rfl, rfl⟩
        | some t =>
          by_cases hd : env.destroyed t = true
          · simp only [bubbleUpEach, hd, if_true] at hx
            cases hr : removeDispatchTarget st.1 (some t) with
            | error e =>
              rw [hr] at hx
              cases hx
            | ok c1 =>
              rw [hr] at hx
              cases hx
              exact removeDispatchTarget_fields st.1 c1 (some t) hr
          · simp only [bubbleUpEach, hd, Bool.false_eq_true, if_false] at hx
            cases hx
            exact hH t st.1
      exact ⟨h1.trans hst.1, h2.trans hst.2⟩

theorem prune_sublist (env : Env) (R S : List Ref) : (prune env S R).Sublist S := by
  induction R generalizing S with
  | nil => exact List.Sublist.refl S
  | cons r R ih =>
    rw [prune_cons]
    by_cases hr : isDestroyed env r = true
    · rw [if_pos hr]
      exact (ih _).trans (List.erase_sublist r S)
    · rw [if_neg hr]
      exact ih S

theorem step_addDispatchTarget (c : Component) (L : List Ref) (t : Ref)
    (hL : c._dispatch_targets = some L) :
    (step c (Op.addDispatchTarget t)).component =
      if t = none ∨ t = some c.self ∨ t = c.owner ∨ t ∈ L then c
      else { c with _dispatch_targets := some (L ++ [t]) } := by
  simp only [step, addDispatchTarget_eq c L t hL]

theorem step_removeDispatchTarget (c : Component) (L : List Ref) (t : Ref)
    (hL : c._dispatch_targets = some L) :
    (step c (Op.removeDispatchTarget t)).component =
      { c with _dispatch_targets := some (L.erase t) } := by
  simp only [step, removeDispatchTarget_eq_erase c L t hL]

theorem ownerChanged_fields (env : Env) (c : Component) :
    (ownerChanged env c).self = c.self ∧ (ownerChanged env c).owner = c.owner ∧
    (ownerChanged env c)._dispatch_targets = c._dispatch_targets := by
  unfold ownerChanged
  split
  · split_ifs <;> exact ⟨rfl, rfl, rfl⟩
  · exact ⟨rfl, rfl, rfl⟩

theorem step_setOwner (c : Component) (o : Ref) (isC : Nat → Bool) (ir : Bool) :
    (step c (Op.setOwner o isC ir)).component.self = c.self ∧
    (step c (Op.setOwner o isC ir)).component.owner = o ∧
    (step c (Op.setOwner o isC ir)).component._dispatch_targets = c._dispatch_targets := by
  cases ir with
  | true => exact ⟨rfl, rfl, rfl⟩
  | false =>
    have h := ownerChanged_fields ⟨fun _ => false, isC, fun _ c => c⟩ { c with owner := o }
    simp only [step, Bool.false_eq_true, if_false]
    exact h

theorem step_bubbleUp (c : Component) (L : List Ref) (d : Nat → Bool) (ir : Bool)
    (hr : Nat → Bool) (name : String) (event : Event) (sender : Ref)
    (hL : c._dispatch_targets = some L) :
    (step c (Op.bubbleUp d ir hr name event sender)).component.self = c.self ∧
    (step c (Op.bubbleUp d ir hr name event sender)).component.owner = c.owner ∧
    ∃ L1, (step c (Op.bubbleUp d ir hr name event sender)).component._dispatch_targets = some L1 ∧
      L1.Sublist L := by
  simp only [step]
  split_ifs with h1 h2
  · exact ⟨rfl, rfl, L, hL, List.Sublist.refl L⟩
  · obtain ⟨c1, hb, hb2⟩ :=
      bubbleUp_ok ⟨d, fun _ => false, fun _ c => c⟩ c L name event sender hL (fun _ _ => rfl)
    have hf := bubbleUp_foldlM_fields ⟨d, fun _ => false, fun _ c => c⟩ name event sender
      (fun _ _ => ⟨rfl, rfl⟩) L (c, _) (c1, _)
      (by simpa only [bubbleUp, forEach, clone, hL, Option.getD_some] using hb)
    rw [hb]
    exact ⟨hf.1, hf.2, _, hb2, List.filter_sublist L⟩
  · obtain ⟨c1, hb, hb2⟩ :=
      bubbleUp_foldlM ⟨d, fun _ => false, fun _ c => c⟩ name event sender (fun _ _ => rfl)
        (processed d hr (clone c._dispatch_targets)) c L [] hL
    have hf := bubbleUp_foldlM_fields ⟨d, fun _ => false, fun _ c => c⟩ name event sender
      (fun _ _ => ⟨rfl, rfl⟩) _ (c, _) (c1, _) hb
    simp only [forEach, Option.getD_some]
    rw [hb]
    exact ⟨hf.1, hf.2, _, hb2, prune_sublist _ _ L⟩

theorem step_setOwner_raised (c : Component) (o : Ref) (isC : Nat → Bool) (ir : Bool) :
    (step c (Op.setOwner o isC ir)).raised = ir := by
  cases ir <;> rfl

theorem step_addDispatchTarget_raised (c : Component) (L : List Ref) (t : Ref)
    (hL : c._dispatch_targets = some L) : (step c (Op.addDispatchTarget t)).raised = false := by
  simp only [step, addDispatchTarget_eq c L t hL]

theorem step_removeDispatchTarget_raised (c : Component) (L : List Ref) (t : Ref)
    (hL : c._dispatch_targets = some L) : (step c (Op.removeDispatchTarget t)).raised = false := by
  simp only [step, removeDispatchTarget_eq_erase c L t hL]

theorem stepTracked_inv (self : Nat) (owner0 : Ref) (pre : List Op) (s : Tracked) (op : Op)
    (h : TrackedInv self owner0 pre s) : TrackedInv self owner0 (pre ++ [op]) (stepTracked s op) := by
  obtain ⟨hself, hclock, howner, L, hL, hinv⟩ := h
  have hlen : (pre ++ [op]).length = pre.length + 1 := by simp
  have howner1 : ∀ o, s.component.owner = o →
      ((s.ownerSetAt = 0 ∧ o = owner0) ∨
        (1 ≤ s.ownerSetAt ∧ s.ownerSetAt ≤ (pre ++ [op]).length ∧
          ∃ isComponent inheritedRaises, (pre ++ [op])[s.ownerSetAt - 1]? =
            some (Op.setOwner o isComponent inheritedRaises))) := by
    intro o ho
    subst ho
    rcases howner with h0 | ⟨h1, h2, isC, ir, h3⟩
    · exact Or.inl h0
    · exact Or.inr ⟨h1, by omega, isC, ir, getElem?_concat_of_some op h3⟩
  cases op with
  | addDispatchTarget t =>
    have hstep := step_addDispatchTarget s.component L t hL
    by_cases hc : t = none ∨ t = some s.component.self ∨ t = s.component.owner ∨ t ∈ L
    · rw [if_pos hc] at hstep
      have hst : stepTracked s (Op.addDispatchTarget t) = { s with clock := s.clock + 1 } := by
        simp only [stepTracked, hstep, if_true]
      rw [hst]
      exact ⟨hself, by simp [hclock], howner1 _ rfl, L, hL, hinv.concat _⟩
    · rw [if_neg hc] at hstep
      have hne : ¬ (some (L ++ [t]) = s.component._dispatch_targets) := by
        rw [hL]
        intro he
        have := congrArg List.length (Option.some.inj he)
        simp at this
      have hst : stepTracked s (Op.addDispatchTarget t) =
          { s with component := { s.component with _dispatch_targets := some (L ++ [t]) },
                   clock := s.clock + 1,
                   registeredAt := Function.update s.registeredAt t (s.clock + 1) } := by
        simp only [stepTracked, hstep, hne, if_false]
      rw [hst]
      push_neg at hc
      obtain ⟨hc1, hc2, hc3, hc4⟩ := hc
      obtain ⟨h1, h2, h3, h4, h5, h6⟩ := hinv
      have hupd : ∀ a ∈ L, Function.update s.registeredAt t (s.clock + 1) a = s.registeredAt a := by
        intro a ha
        have hat : a ≠ t := fun hat => hc4 (by rw [← hat]; exact ha)
        exact Function.update_noteq hat _ _
      refine ⟨hself, by simp [hclock], howner1 _ rfl, L ++ [t], rfl, ?_⟩
      show ListInv self s.component.owner (Function.update s.registeredAt t (s.clock + 1))
        s.ownerSetAt (pre ++ [Op.addDispatchTarget t]) (L ++ [t])
      refine ⟨?_, ?_, ?_, ?_, ?_, ?_⟩
      · rw [List.nodup_append]
        refine ⟨h1, List.nodup_singleton t, ?_⟩
        intro a ha hb
        rw [List.mem_singleton] at hb
        exact hc4 (hb ▸ ha)
      · intro hm
        rcases List.mem_append.mp hm with hm | hm
        · exact h2 hm
        · rw [List.mem_singleton] at hm
          exact hc2 (hself ▸ hm.symm)
      · intro hm
        rcases List.mem_append.mp hm with hm | hm
        · exact h3 hm
        · rw [List.mem_singleton] at hm
          exact hc1 hm.symm
      · rw [List.pairwise_append]
        refine ⟨?_, List.pairwise_singleton _ _, ?_⟩
        · exact h4.imp_of_mem (fun {a b} ha hb hab => by
            rw [hupd a ha, hupd b hb]
            exact hab)
        · intro a ha b hb
          rw [List.mem_singleton] at hb
          subst hb
          rw [hupd a ha, Function.update_same]
          have := (h5 a ha).2.1
          omega
      · intro a ha
        rcases List.mem_append.mp ha with ha | ha
        · rw [hupd a ha]
          obtain ⟨ha1, ha2, ha3⟩ := h5 a ha
          exact ⟨ha1, by rw [hlen]; omega, getElem?_concat_of_some _ ha3⟩
        · rw [List.mem_singleton] at ha
          subst ha
          rw [Function.update_same, hclock]
          refine ⟨by omega, by rw [hlen], ?_⟩
          simp
      · intro a ha hao
        rcases List.mem_append.mp ha with ha | ha
        · rw [hupd a ha]
          exact h6 a ha hao
        · rw [List.mem_singleton] at ha
          exact absurd (ha ▸ hao) hc3
  | removeDispatchTarget t =>
    have hstep := step_removeDispatchTarget s.component L t hL
    have hst : stepTracked s (Op.removeDispatchTarget t) =
        { s with component := { s.component with _dispatch_targets := some (L.erase t) },
                 clock := s.clock + 1 } := by
      simp only [stepTracked, hstep]
    rw [hst]
    exact ⟨hself, by simp [hclock], howner1 _ rfl, L.erase t, rfl,
      (hinv.concat _).sublist (List.erase_sublist t L)⟩
  | setOwner o isC ir =>
    obtain ⟨h1, h2, h3, h4, h5, h6⟩ := hinv
    obtain ⟨hs1, hs2, hs3⟩ := step_setOwner s.component o isC ir
    have hst : stepTracked s (Op.setOwner o isC ir) =
        { s with component := (step s.component (Op.setOwner o isC ir)).component,
                 clock := s.clock + 1, ownerSetAt := s.clock + 1 } := rfl
    rw [hst]
    refine ⟨hs1.trans hself, by simp [hclock], ?_, L, hs3.trans hL, ?_⟩
    · right
      refine ⟨by simp, by simp [hclock], isC, ir, ?_⟩
      show (pre ++ [Op.setOwner o isC ir])[s.clock + 1 - 1]? = _
      rw [hs2, hclock]
      simp
    · show ListInv self _ s.registeredAt (s.clock + 1) (pre ++ [Op.setOwner o isC ir]) L
      refine ⟨h1, h2, h3, h4, ?_, ?_⟩
      · intro a ha
        obtain ⟨ha1, ha2, ha3⟩ := h5 a ha
        exact ⟨ha1, by rw [hlen]; omega, getElem?_concat_of_some _ ha3⟩
      · intro a ha _
        have := (h5 a ha).2.1
        omega
  | bubbleUp d ir hr name event sender =>
    obtain ⟨hs1, hs2, L1, hs3, hsub⟩ := step_bubbleUp s.component L d ir hr name event sender hL
    have hst : stepTracked s (Op.bubbleUp d ir hr name event sender) =
        { s with component := (step s.component (Op.bubbleUp d ir hr name event sender)).component,
                 clock := s.clock + 1 } := rfl
    rw [hst]
    refine ⟨hs1.trans hself, by simp [hclock], howner1 _ hs2.symm, L1, hs3, ?_⟩
    show ListInv self (step s.component _).component.owner s.registeredAt s.ownerSetAt _ _
    rw [hs2]
    exact (hinv.concat _).sublist hsub

theorem foldl_stepTracked_inv (self : Nat) (owner0 : Ref) :
    ∀ (ops pre : List Op) (s : Tracked), TrackedInv self owner0 pre s →
      TrackedInv self owner0 (pre ++ ops) (ops.foldl stepTracked s) := by
  intro ops
  induction ops with
  | nil =>
    intro pre s h
    simpa using h
  | cons op ops ih =>
    intro pre s h
    have h1 := ih (pre ++ [op]) (stepTracked s op) (stepTracked_inv self owner0 pre s op h)
    simpa using h1

theorem stepTracked_component (s : Tracked) (op : Op) :
    (stepTracked s op).component = (step s.component op).component := by
  cases op <;> simp only [stepTracked]
  split_ifs <;> rfl

theorem foldl_stepTracked_component :
    ∀ (ops : List Op) (s : Tracked),
      (ops.foldl stepTracked s).component =
        ops.foldl (fun c op => (step c op).component) s.component := by
  intro ops
  induction ops with
  | nil =>
    intro s
    rfl
  | cons op ops ih =>
    intro s
    rw [List.foldl_cons, List.foldl_cons, ih, stepTracked_component]

/-- C6 as stated fails: after `create()`, `addDispatchTarget(1)` and an owner change to `1`
(no call raising), the dispatch-target list `[1]` contains the component's current owner. -/
theorem owner_in_dispatch_targets :
    (run ⟨0, none, none, false, none⟩
        [Op.addDispatchTarget (some 1), Op.setOwner (some 1) (fun _ => true) false]
      )._dispatch_targets = some [some 1] ∧
    (run ⟨0, none, none, false, none⟩
        [Op.addDispatchTarget (some 1), Op.setOwner (some 1) (fun _ => true) false]
      ).owner = some 1 ∧
    ∃ L, (run ⟨0, none, none, false, none⟩
        [Op.addDispatchTarget (some 1), Op.setOwner (some 1) (fun _ => true) false]
      )._dispatch_targets = some L ∧
      (run ⟨0, none, none, false, none⟩
        [Op.addDispatchTarget (some 1), Op.setOwner (some 1) (fun _ => true) false]
      ).owner ∈ L :=
  ⟨rfl, rfl, [some 1], rfl, by decide⟩

/-- C6, amended: in the state after `create()` and any sequence `ops` of `addDispatchTarget`,
`removeDispatchTarget`, owner changes and `bubbleUp` calls (whether they return or raise), the
dispatch-target list has no duplicates and does not contain the component itself; its targets
appear in the order of the `addDispatchTarget` calls that appended them; and it contains the
current owner only if that target was appended before the owner was assigned
(`addDispatchTarget` refuses the owner of the moment, `ownerChanged` does not prune). -/
theorem dispatch_targets_invariant (c0 : Component) (ops : List Op) :
    (runTracked c0 ops).component = run c0 ops ∧
    (run c0 ops).self = c0.self ∧
    ∃ L, (run c0 ops)._dispatch_targets = some L ∧
      L.Nodup ∧ some (run c0 ops).self ∉ L ∧
      L.Pairwise (fun a b => (runTracked c0 ops).registeredAt a < (runTracked c0 ops).registeredAt b) ∧
      (∀ a ∈ L, 1 ≤ (runTracked c0 ops).registeredAt a ∧
        (runTracked c0 ops).registeredAt a ≤ ops.length ∧
        ops[(runTracked c0 ops).registeredAt a - 1]? = some (Op.addDispatchTarget a)) ∧
      (((runTracked c0 ops).ownerSetAt = 0 ∧ (run c0 ops).owner = c0.owner) ∨
        (1 ≤ (runTracked c0 ops).ownerSetAt ∧ (runTracked c0 ops).ownerSetAt ≤ ops.length ∧
          ∃ isComponent inheritedRaises,
            ops[(runTracked c0 ops).ownerSetAt - 1]? =
              some (Op.setOwner (run c0 ops).owner isComponent inheritedRaises))) ∧
      (∀ a ∈ L, a = (run c0 ops).owner →
        (runTracked c0 ops).registeredAt a < (runTracked c0 ops).ownerSetAt) := by
  have h0 : TrackedInv c0.self c0.owner [] ⟨create c0, 0, fun _ => 0, 0⟩ := by
    refine ⟨rfl, rfl, Or.inl ⟨rfl, rfl⟩, [], rfl, ?_⟩
    refine ⟨List.nodup_nil, by simp, by simp, List.Pairwise.nil, by simp, by simp⟩
  have hcomp : (runTracked c0 ops).component = run c0 ops :=
    foldl_stepTracked_component ops _
  obtain ⟨hself, -, howner, L, hL, h1, h2, -, h4, h5, h6⟩ :=
    foldl_stepTracked_inv c0.self c0.owner ops [] _ h0
  rw [List.nil_append] at howner h5
  change (runTracked c0 ops).component.self = c0.self at hself
  change (runTracked c0 ops).component._dispatch_targets = some L at hL
  rw [hcomp] at hself hL
  refine ⟨hcomp, hself, L, hL, h1, ?_, h4, h5, ?_, ?_⟩
  · rw [hself]
    exact h2
  · rw [← hcomp]
    exact howner
  · rw [← hcomp]
    exact h6

/-! ## The touch scroll strategy -/

/-- C8: after the should-drag negotiation has tagged the event, `dragstart` sets `dragging` to
true exactly when the event's dragger is the strategy, or the event has no dragger and its
boundary dragger is the strategy.  With no dragger, `dragging` true implies the strategy is the
boundary dragger; a dragger other than the strategy gives `dragging` false.  When `dragging` is
false the handler makes no call (no `preventDefault`, no `startDrag`) and returns `undefined`,
so it does not stop the propagation. -/
theorem dragstart_spec (s : Strategy) (doShouldDrag : DragEvent → DragEvent) (e : DragEvent) :
    (dragstart s doShouldDrag e).event = doShouldDrag e ∧
    ((dragstart s doShouldDrag e).strategy.dragging = true ↔
      ((doShouldDrag e).dragger = some s.self ∨
        ((doShouldDrag e).dragger = none ∧ (doShouldDrag e).boundaryDragger = some s.self))) ∧
    ((doShouldDrag e).dragger = none →
      (dragstart s doShouldDrag e).strategy.dragging = true →
      (doShouldDrag e).boundaryDragger = some s.self) ∧
    (∀ d, (doShouldDrag e).dragger = some d → d ≠ s.self →
      (dragstart s doShouldDrag e).strategy.dragging = false) ∧
    ((dragstart s doShouldDrag e).strategy.dragging = false →
      (dragstart s doShouldDrag e).effects = [] ∧
      DragEffect.preventDefault ∉ (dragstart s doShouldDrag e).effects ∧
      (∀ ev, DragEffect.startDrag ev ∉ (dragstart s doShouldDrag e).effects) ∧
      (dragstart s doShouldDrag e).returned = none) ∧
    ((dragstart s doShouldDrag e).strategy.dragging = true →
      (dragstart s doShouldDrag e).effects =
        [DragEffect.preventDefault, DragEffect.syncScrollMath,
          DragEffect.startDrag (doShouldDrag e)]) := by
  cases hd : (doShouldDrag e).dragger with
  | none =>
    by_cases hb : (doShouldDrag e).boundaryDragger = some s.self <;>
      simp [dragstart, hd, hb]
  | some d =>
    by_cases hds : d = s.self
    · simp [dragstart, hd, hds]
    · have hds' : ¬ s.self = d := fun h => hds h.symm
      simp [dragstart, hd, hds, hds']

/-- C9: with a realized scroll node, after the axis's policy-changed handler followed by
`calcAutoScrolling` with measured bounds `b`, the scroll-math flag of the axis is false for
policy `"hidden"`, true for policy `"scroll"`, and for policy `"auto"` it is
`height > clientHeight` (vertical) and `width > clientWidth` (horizontal). -/
theorem axis_policy_spec (s : Strategy) (b : ScrollBounds) (hnode : s.scrollNode ≠ none) :
    (s.vertical = "hidden" →
      (calcAutoScrolling (verticalChanged s) b).scrollMath.vertical = false) ∧
    (s.vertical = "scroll" →
      (calcAutoScrolling (verticalChanged s) b).scrollMath.vertical = true) ∧
    (s.vertical = "auto" →
      (calcAutoScrolling (verticalChanged s) b).scrollMath.vertical
        = decide (b.height > b.clientHeight)) ∧
    (s.horizontal = "hidden" →
      (calcAutoScrolling (horizontalChanged s) b).scrollMath.horizontal = false) ∧
    (s.horizontal = "scroll" →
      (calcAutoScrolling (horizontalChanged s) b).scrollMath.horizontal = true) ∧
    (s.horizontal = "auto" →
      (calcAutoScrolling (horizontalChanged s) b).scrollMath.horizontal
        = decide (b.width > b.clientWidth)) := by
  have hn : s.scrollNode.isSome = true := Option.isSome_iff_ne_none.mpr hnode
  refine ⟨?_, ?_, ?_, ?_, ?_, ?_⟩ <;> intro hp
  · unfold calcAutoScrolling verticalChanged
    simp only [hp]
    split_ifs <;> simp_all
  · unfold calcAutoScrolling verticalChanged
    simp only [hp]
    split_ifs <;> simp_all
  · unfold calcAutoScrolling verticalChanged
    simp only [hp, hn]
    split_ifs <;> simp_all
  · unfold calcAutoScrolling horizontalChanged
    simp only [hp]
    split_ifs <;> simp_all
  · unfold calcAutoScrolling horizontalChanged
    simp only [hp]
    split_ifs <;> simp_all
  · unfold calcAutoScrolling horizontalChanged
    simp only [hp, hn]
    split_ifs <;> simp_all

/-- Witness of C9: vertical policy `"auto"` with content 500 high in a container 480 high,
horizontal policy `"hidden"`. -/
theorem axis_policy_spec_witness :
    (⟨1, true, "auto", "hidden", false, some 4, ⟨true, true, 0, 0, 0, 0, 0, 0⟩⟩ : Strategy).scrollNode
        ≠ none ∧
    (calcAutoScrolling
        (verticalChanged ⟨1, true, "auto", "hidden", false, some 4, ⟨true, true, 0, 0, 0, 0, 0, 0⟩⟩)
        ⟨300, 500, 320, 480⟩).scrollMath.vertical = true ∧
    (calcAutoScrolling
        (horizontalChanged ⟨1, true, "auto", "hidden", false, some 4, ⟨true, true, 0, 0, 0, 0, 0, 0⟩⟩)
        ⟨300, 500, 320, 480⟩).scrollMath.horizontal = false := by
  have h := axis_policy_spec
    ⟨1, true, "auto", "hidden", false, some 4, ⟨true, true, 0, 0, 0, 0, 0, 0⟩⟩
    ⟨300, 500, 320, 480⟩ (by simp)
  refine ⟨by simp, ?_, h.2.2.2.1 rfl⟩
  rw [h.2.2.1 rfl]
  norm_num

/-- C10 as stated fails: with `topBoundary = 0`, `bottomBoundary = -50` and `y = -50.5` the
position is below the bottom boundary; the difference `0.5` is a double, and the reported
`overtop` is `floor(0.5) = 0`, which is not positive. -/
theorem getOverScrollBounds_overtop_not_positive :
    (⟨true, true, 0, -101 / 2, 0, -50, 0, 0⟩ : ScrollMath).bottomBoundary
      ≤ (⟨true, true, 0, -101 / 2, 0, -50, 0, 0⟩ : ScrollMath).topBoundary ∧
    (⟨true, true, 0, -101 / 2, 0, -50, 0, 0⟩ : ScrollMath).y
      < (⟨true, true, 0, -101 / 2, 0, -50, 0, 0⟩ : ScrollMath).bottomBoundary ∧
    ∀ rnd : ℚ → ℚ, rnd (1 / 2) = 1 / 2 →
      (getOverScrollBounds rnd ⟨true, true, 0, -101 / 2, 0, -50, 0, 0⟩).overtop = 0 ∧
      ¬ 0 < (getOverScrollBounds rnd ⟨true, true, 0, -101 / 2, 0, -50, 0, 0⟩).overtop := by
  refine ⟨by norm_num, by norm_num, ?_⟩
  intro rnd hr
  have h : (getOverScrollBounds rnd ⟨true, true, 0, -101 / 2, 0, -50, 0, 0⟩).overtop = 0 := by
    have hd : ((-50 : ℚ) - (-101 / 2)) = 1 / 2 := by norm_num
    have hn : ¬ ((-101 / 2 : ℚ) > 0) := by norm_num
    simp only [getOverScrollBounds, if_neg hn, hd, hr]
    norm_num [Int.floor_eq_iff]
  refine ⟨h, ?_⟩
  rw [h]
  decide

/-- C10, amended: for doubles with `bottomBoundary ≤ topBoundary` and
`rightBoundary ≤ leftBoundary`, `overtop` is the floor of the difference `topBoundary - y` as
computed (rounded to the nearest double; the exact difference when that is a double) and
negative when `y > topBoundary`; it is the floor of the computed `bottomBoundary - y` and
non-negative when `y < bottomBoundary`, positive exactly when the computed difference is at
least 1, hence whenever `bottomBoundary - y ≥ 1`; likewise `overleft` from `x`, `leftBoundary`
and `rightBoundary`. -/
theorem getOverScrollBounds_spec (rnd : ℚ → ℚ) (hr : IsRounding rnd) (m : ScrollMath)
    (hm : m.IsDouble rnd)
    (hv : m.bottomBoundary ≤ m.topBoundary) (hh : m.rightBoundary ≤ m.leftBoundary) :
    (m.y > m.topBoundary →
      (getOverScrollBounds rnd m).overtop = Int.floor (rnd (m.topBoundary - m.y)) ∧
      (rnd (m.topBoundary - m.y) = m.topBoundary - m.y →
        (getOverScrollBounds rnd m).overtop = Int.floor (m.topBoundary - m.y)) ∧
      (getOverScrollBounds rnd m).overtop < 0) ∧
    (m.y < m.bottomBoundary →
      (getOverScrollBounds rnd m).overtop = Int.floor (rnd (m.bottomBoundary - m.y)) ∧
      (rnd (m.bottomBoundary - m.y) = m.bottomBoundary - m.y →
        (getOverScrollBounds rnd m).overtop = Int.floor (m.bottomBoundary - m.y)) ∧
      0 ≤ (getOverScrollBounds rnd m).overtop ∧
      (0 < (getOverScrollBounds rnd m).overtop ↔ 1 ≤ rnd (m.bottomBoundary - m.y)) ∧
      (1 ≤ m.bottomBoundary - m.y → 0 < (getOverScrollBounds rnd m).overtop)) ∧
    (m.x > m.leftBoundary →
      (getOverScrollBounds rnd m).overleft = Int.floor (rnd (m.leftBoundary - m.x)) ∧
      (rnd (m.leftBoundary - m.x) = m.leftBoundary - m.x →
        (getOverScrollBounds rnd m).overleft = Int.floor (m.leftBoundary - m.x)) ∧
      (getOverScrollBounds rnd m).overleft < 0) ∧
    (m.x < m.rightBoundary →
      (getOverScrollBounds rnd m).overleft = Int.floor (rnd (m.rightBoundary - m.x)) ∧
      (rnd (m.rightBoundary - m.x) = m.rightBoundary - m.x →
        (getOverScrollBounds rnd m).overleft = Int.floor (m.rightBoundary - m.x)) ∧
      0 ≤ (getOverScrollBounds rnd m).overleft ∧
      (0 < (getOverScrollBounds rnd m).overleft ↔ 1 ≤ rnd (m.rightBoundary - m.x)) ∧
      (1 ≤ m.rightBoundary - m.x → 0 < (getOverScrollBounds rnd m).overleft)) := by
  obtain ⟨hx, hy, ht, hb, hl, hrt⟩ := hm
  have hneg : ∀ a b : ℚ, rnd a = a → rnd b = b → a < b → rnd (a - b) < 0 := by
    intro a b ha hb hab
    have h1 : rnd (a - b) ≤ 0 := by
      have := hr.mono (a - b) 0 (sub_nonpos.mpr hab.le)
      rwa [hr.zero] at this
    exact lt_of_le_of_ne h1 (hr.sub_ne_zero a b ha hb hab.ne)
  have hnonneg : ∀ a b : ℚ, b < a → 0 ≤ rnd (a - b) := by
    intro a b hab
    have := hr.mono 0 (a - b) (sub_nonneg.mpr hab.le)
    rwa [hr.zero] at this
  have hone : ∀ a b : ℚ, 1 ≤ a - b → 1 ≤ rnd (a - b) := by
    intro a b hab
    have := hr.mono 1 (a - b) hab
    rwa [hr.one] at this
  refine ⟨?_, ?_, ?_, ?_⟩ <;> intro h
  · have e : (getOverScrollBounds rnd m).overtop = Int.floor (rnd (m.topBoundary - m.y)) := by
      simp only [getOverScrollBounds, if_pos h]
    refine ⟨e, fun hex => by rw [e, hex], ?_⟩
    rw [e, Int.floor_lt]
    simpa using hneg _ _ ht hy h
  · have hn : ¬ m.y > m.topBoundary := not_lt.mpr (le_trans h.le hv)
    have e : (getOverScrollBounds rnd m).overtop = Int.floor (rnd (m.bottomBoundary - m.y)) := by
      simp only [getOverScrollBounds, if_neg hn]
    refine ⟨e, fun hex => by rw [e, hex], ?_, ?_, ?_⟩
    · rw [e]
      exact Int.floor_nonneg.mpr (hnonneg _ _ h)
    · rw [e, Int.floor_pos]
    · intro h1
      rw [e, Int.floor_pos]
      exact hone _ _ h1
  · have e : (getOverScrollBounds rnd m).overleft = Int.floor (rnd (m.leftBoundary - m.x)) := by
      simp only [getOverScrollBounds, if_pos h]
    refine ⟨e, fun hex => by rw [e, hex], ?_⟩
    rw [e, Int.floor_lt]
    simpa using hneg _ _ hl hx h
  · have hn : ¬ m.x > m.leftBoundary := not_lt.mpr (le_trans h.le hh)
    have e : (getOverScrollBounds rnd m).overleft = Int.floor (rnd (m.rightBoundary - m.x)) := by
      simp only [getOverScrollBounds, if_neg hn]
    refine ⟨e, fun hex => by rw [e, hex], ?_, ?_, ?_⟩
    · rw [e]
      exact Int.floor_nonneg.mpr (hnonneg _ _ h)
    · rw [e, Int.floor_pos]
    · intro h1
      rw [e, Int.floor_pos]
      exact hone _ _ h1

/-- Witness of C10: `topBoundary = 0`, `bottomBoundary = -50`, `y = 10` gives `overtop = -10`
(all the numbers involved are doubles, the subtraction is exact). -/
theorem getOverScrollBounds_spec_witness :
    IsRounding (fun q => q) ∧
    (⟨true, true, 0, 10, 0, -50, 0, 0⟩ : ScrollMath).IsDouble (fun q => q) ∧
    (⟨true, true, 0, 10, 0, -50, 0, 0⟩ : ScrollMath).bottomBoundary
      ≤ (⟨true, true, 0, 10, 0, -50, 0, 0⟩ : ScrollMath).topBoundary ∧
    (⟨true, true, 0, 10, 0, -50, 0, 0⟩ : ScrollMath).rightBoundary
      ≤ (⟨true, true, 0, 10, 0, -50, 0, 0⟩ : ScrollMath).leftBoundary ∧
    (getOverScrollBounds (fun q => q) ⟨true, true, 0, 10, 0, -50, 0, 0⟩).overtop = -10 := by
  have hr : IsRounding (fun q => q) :=
    ⟨fun _ _ h => h, rfl, rfl, fun a b _ _ h => sub_ne_zero.mpr h⟩
  have hm : (⟨true, true, 0, 10, 0, -50, 0, 0⟩ : ScrollMath).IsDouble (fun q => q) :=
    ⟨rfl, rfl, rfl, rfl, rfl, rfl⟩
  have h := (getOverScrollBounds_spec (fun q => q) hr ⟨true, true, 0, 10, 0, -50, 0, 0⟩ hm
    (by norm_num) (by norm_num)).1 (by norm_num)
  refine ⟨hr, hm, by norm_num, by norm_num, ?_⟩
  rw [h.1]
  norm_num [Int.floor_eq_iff]

end Enyo
